import Mathlib

/-!
Shallow embedding of the span-annotation and rendering engine of this
repository (src/app.py and src/main.py).  Text is modelled as `List Char`;
tokens produced by Python's `str.split()` are `List (List Char)`.
-/

/-- Whitespace characters recognised by Python's `str.split()` (ASCII range). -/
def pyIsSpace (c : Char) : Bool :=
  c = ' ' || c = '\t' || c = '\n' || c = '\r' || c = '\x0b' || c = '\x0c'

/-- Accumulator-passing worker for `splitWs`; `cur` holds the current word, reversed. -/
def splitWsAux : List Char → List Char → List (List Char)
  | [], cur => if cur.isEmpty then [] else [cur.reverse]
  | c :: cs, cur =>
    if pyIsSpace c then
      if cur.isEmpty then splitWsAux cs [] else cur.reverse :: splitWsAux cs []
    else
      splitWsAux cs (c :: cur)

/-- Python `text.split()`: split on runs of whitespace, dropping empty pieces. -/
def splitWs (text : List Char) : List (List Char) :=
  splitWsAux text []

/-- Python `" ".join(tokens)`: tokens joined by a single space. -/
def joinSpace : List (List Char) → List Char
  | [] => []
  | [t] => t
  | t :: t2 :: ts => t ++ ' ' :: joinSpace (t2 :: ts)

/-- The regex `^\$?\d+(\.\d+)?$` from src/app.py line 32 and src/main.py line 67:
an optional leading dollar sign, one or more digits, and an optional decimal
fraction. -/
def numPriceMatch (t : List Char) : Bool :=
  let t' := match t with
    | '$' :: r => r
    | r => r
  let d := t'.takeWhile Char.isDigit
  let rest := t'.dropWhile Char.isDigit
  !d.isEmpty &&
    (rest.isEmpty ||
      match rest with
      | '.' :: f => !f.isEmpty && f.all Char.isDigit
      | _ => false)

/-- The regex `^\d{1,2}/\d{1,2}/\d{2,4}$` from src/main.py line 66: a date such
as `12/25/2020`. -/
def dateMatch (t : List Char) : Bool :=
  let a := t.takeWhile Char.isDigit
  let r := t.dropWhile Char.isDigit
  (1 ≤ a.length && a.length ≤ 2) &&
    match r with
    | '/' :: r1 =>
      let b := r1.takeWhile Char.isDigit
      let r2 := r1.dropWhile Char.isDigit
      (1 ≤ b.length && b.length ≤ 2) &&
        match r2 with
        | '/' :: r3 =>
          let c := r3.takeWhile Char.isDigit
          (2 ≤ c.length && c.length ≤ 4) && (r3.dropWhile Char.isDigit).isEmpty
        | _ => false
    | _ => false

/-- Python `tok[0].isupper()` (false on an empty token, which `split()` never yields). -/
def firstIsUpper : List Char → Bool
  | c :: _ => c.isUpper
  | [] => false

/-- Insertion trigger of src/app.py lines 31-33: the current token matches the
numeric/price pattern and the next token starts with an uppercase letter. -/
def trigApp (t next : List Char) : Bool :=
  numPriceMatch t && firstIsUpper next

/-- Insertion trigger of src/main.py lines 65-68: the current token matches the
date pattern or the numeric/price pattern, and the next token is nonempty and
starts with an uppercase letter. -/
def trigMain (t next : List Char) : Bool :=
  (dateMatch t || numPriceMatch t) && (!next.isEmpty && firstIsUpper next)

/-- The indexed insertion loop shared by src/app.py lines 29-34 and
src/main.py lines 62-69: walk the token list by index, copying each token and
appending a synthetic `"."` token right after position `i` whenever
`i < len(tokens) - 1` and the trigger fires on `tokens[i]` and `tokens[i+1]`. -/
def insertLoop (trig : List Char → List Char → Bool) (tokens : List (List Char)) :
    List (List Char) :=
  (List.range tokens.length).flatMap (fun i =>
    tokens.getD i [] ::
      (if decide (i < tokens.length - 1) && trig (tokens.getD i []) (tokens.getD (i + 1) [])
       then [['.']] else []))

/-- Structural-recursion reformulation of `insertLoop`, used for proofs. -/
def insRec (trig : List Char → List Char → Bool) : List (List Char) → List (List Char)
  | [] => []
  | [t] => [t]
  | t :: next :: rest =>
    t :: (if trig t next then ['.'] :: insRec trig (next :: rest)
          else insRec trig (next :: rest))

/-- Guard of src/app.py line 26: `any(p in text for p in ".!?")`. -/
def hasSentencePunct (text : List Char) : Bool :=
  ['.', '!', '?'].any (fun p => text.contains p)

/-- src/app.py lines 22-36 (`preprocess`): if the text contains none of `.!?`,
tokenize on whitespace, run the insertion loop with the numeric/price trigger,
and re-join with single spaces; otherwise return the text unchanged. -/
def preprocess (text : List Char) : List Char :=
  if hasSentencePunct text then text
  else joinSpace (insertLoop trigApp (splitWs text))

/-- src/main.py lines 56-70 (`preprocess_text`): unconditionally tokenize on
whitespace, run the insertion loop with the date-or-numeric trigger, and
re-join with single spaces. -/
def preprocess_text (text : List Char) : List Char :=
  joinSpace (insertLoop trigMain (splitWs text))

/-- Python `string.punctuation`. -/
def py_string_punct : List Char :=
  String.toList "!\"#$%&\x27()*+,-./:;<=>?@[\\]^_\x60\x7b|\x7d~"

/-- Preprocessing step of src/main.py lines 252-253 (also lines 285-286,
317-318, 363-364): the insertion heuristic runs only when the text contains no
character of `string.punctuation` at all. -/
def tag_entities_preprocess (text : List Char) : List Char :=
  if !(py_string_punct.any (fun ch => text.contains ch)) then preprocess_text text
  else text

/-- An entity span as produced by the recognizer (spaCy `Span`): character
offsets `start_char`/`end_char`, the label `label_`, and `len`, the number of
tokens the span covers (Python `len(ent)`). -/
structure Span where
  start_char : Nat
  end_char : Nat
  label_ : String
  len : Nat
deriving DecidableEq, Repr

/-- Python slice `text[a:b]` for `0 ≤ a ≤ b` (clamped at both ends). -/
def pySlice (text : List Char) (a b : Nat) : List Char :=
  (text.drop a).take (b - a)

/-- The `COLORS` table of src/app.py lines 16-20. -/
def COLORS : List (String × String) :=
  [("PERSON", "#C8E6C9"), ("ORG", "#A2C8EC"), ("GPE", "#FFCDD2"), ("DATE", "#FFF9C4"),
   ("TIME", "#F8BBD0"), ("PRODUCT", "#B2EBF2"), ("MONEY", "#D1C4E9"), ("QUANTITY", "#C5CAE9"),
   ("PHONE", "#E0F7FA"), ("EMAIL", "#E1BEE7"), ("URL", "#DCEDC8"), ("PERCENT", "#FFCCBC")]

/-- Python `COLORS.get(label, default)`. -/
def COLORS_get (lbl d : String) : String :=
  (COLORS.lookup lbl).getD d

/-- The `ENTITY_COLORS` table of src/main.py lines 41-54 (same values as `COLORS`). -/
def ENTITY_COLORS : List (String × String) :=
  [("PERSON", "#C8E6C9"), ("ORG", "#A2C8EC"), ("GPE", "#FFCDD2"), ("DATE", "#FFF9C4"),
   ("TIME", "#F8BBD0"), ("PRODUCT", "#B2EBF2"), ("MONEY", "#D1C4E9"), ("QUANTITY", "#C5CAE9"),
   ("PHONE", "#E0F7FA"), ("EMAIL", "#E1BEE7"), ("URL", "#DCEDC8"), ("PERCENT", "#FFCCBC")]

/-- Python `ENTITY_COLORS.get(label, default)`. -/
def ENTITY_COLORS_get (lbl d : String) : String :=
  (ENTITY_COLORS.lookup lbl).getD d

/-- One emitted segment of a render walk: either an unstyled slice of the text,
or a styled entity slice carrying a color and the label decoration. -/
inductive Seg where
  | plain : List Char → Seg
  | styled : String → List Char → String → Seg

/-- The underlying text of a segment, with wrapper and label decoration stripped. -/
def stripSeg : Seg → List Char
  | .plain s => s
  | .styled _ content _ => content

/-- Concatenation of the stripped segments. -/
def stripConcat (segs : List Seg) : List Char :=
  (segs.map stripSeg).flatten

/-- Render walk of src/app.py lines 89-99 (`ner`): for each entity whose label
is selected, emit the plain slice `text[last:ent.start_char]` and the styled
slice `text[ent.start_char:ent.end_char]`, advancing `last`; entities with
unselected labels are skipped without advancing `last`; finally emit
`text[last:]`. -/
def nerWalk (text : List Char) (selected : List String) : Nat → List Span → List Seg
  | last, [] => [Seg.plain (pySlice text last text.length)]
  | last, ent :: rest =>
    if ent.label_ ∈ selected then
      Seg.plain (pySlice text last ent.start_char) ::
        Seg.styled (COLORS_get ent.label_ "#FFFF00")
          (pySlice text ent.start_char ent.end_char) ent.label_ ::
        nerWalk text selected ent.end_char rest
    else nerWalk text selected last rest

/-- Inline-highlight encoding of a segment (src/app.py lines 95-96): a styled
segment becomes
`<span class="entity" style="background:COLOR">TEXT [LABEL]</span>`. -/
def encodeInline : Seg → List Char
  | .plain s => s
  | .styled color content lbl =>
    ("<span class=\"entity\" style=\"background:" ++ color ++ "\">").toList ++
      content ++ (" [" ++ lbl ++ "]</span>").toList

/-- The `highlighted` string built by src/app.py lines 89-100. -/
def ner (text : List Char) (ents : List Span) (selected : List String) : List Char :=
  ((nerWalk text selected 0 ents).map encodeInline).flatten

/-- Render walk of src/main.py lines 292-303 (`save_to_word`): emit the plain
slice and the styled entity slice only when nonempty, advance `last_idx`, and
emit the trailing slice only when `last_idx < len(text)`. -/
def save_to_word_segs (text : List Char) : Nat → List Span → List Seg
  | last_idx, [] =>
    if last_idx < text.length then [Seg.plain (pySlice text last_idx text.length)] else []
  | last_idx, ent :: rest =>
    (if pySlice text last_idx ent.start_char ≠ [] then
       [Seg.plain (pySlice text last_idx ent.start_char)] else []) ++
    (if pySlice text ent.start_char ent.end_char ≠ [] then
       [Seg.styled (ENTITY_COLORS_get ent.label_ "FFFF00")
          (pySlice text ent.start_char ent.end_char) ent.label_] else []) ++
    save_to_word_segs text ent.end_char rest

/-- A run record of the document-run target: visible text plus optional shading. -/
structure Run where
  text : List Char
  shading : Option String
deriving DecidableEq, Repr

/-- Document-run encoding of a segment (src/main.py lines 296-300): a styled
segment becomes a run whose visible text has ` [LABEL]` appended and which
carries the shading color. -/
def encodeRun : Seg → Run
  | .plain s => ⟨s, none⟩
  | .styled color content lbl => ⟨content ++ (" [" ++ lbl ++ "]").toList, some color⟩

/-- The run sequence built by src/main.py lines 290-303. -/
def save_to_word (text : List Char) (ents : List Span) : List Run :=
  (save_to_word_segs text 0 ents).map encodeRun

/-- Render walk of src/main.py lines 324-335 (`save_to_pdf`); identical loop
structure to `save_to_word_segs`, with the print-markup default color. -/
def save_to_pdf_segs (text : List Char) : Nat → List Span → List Seg
  | last_idx, [] =>
    if last_idx < text.length then [Seg.plain (pySlice text last_idx text.length)] else []
  | last_idx, ent :: rest =>
    (if pySlice text last_idx ent.start_char ≠ [] then
       [Seg.plain (pySlice text last_idx ent.start_char)] else []) ++
    (if pySlice text ent.start_char ent.end_char ≠ [] then
       [Seg.styled (ENTITY_COLORS_get ent.label_ "#FFFF00")
          (pySlice text ent.start_char ent.end_char) ent.label_] else []) ++
    save_to_pdf_segs text ent.end_char rest

/-- Print-markup encoding of a segment (src/main.py line 332): a styled segment
becomes `<span backColor="COLOR">TEXT [LABEL]</span>`. -/
def encodePdf : Seg → List Char
  | .plain s => s
  | .styled color content lbl =>
    ("<span backColor=\"" ++ color ++ "\">").toList ++
      content ++ (" [" ++ lbl ++ "]</span>").toList

/-- The `pdf_text` string built by src/main.py lines 323-335. -/
def save_to_pdf (text : List Char) (ents : List Span) : List Char :=
  ((save_to_pdf_segs text 0 ents).map encodePdf).flatten

/-- Recognizer span-list contract from a cursor position: each span starts at
or after the cursor, is well-ordered (`start_char ≤ end_char ≤ len`), and the
remaining spans satisfy the same from its end — i.e. the list is sorted by
start, non-overlapping, and within bounds. -/
def wfFrom (len : Nat) : Nat → List Span → Bool
  | _, [] => true
  | last, s :: rest =>
    decide (last ≤ s.start_char) && decide (s.start_char ≤ s.end_char) &&
      decide (s.end_char ≤ len) && wfFrom len s.end_char rest

/-- A span list is well-formed for a text when it is sorted by start,
non-overlapping, and within the text's bounds. -/
def WellFormed (text : List Char) (spans : List Span) : Prop :=
  wfFrom text.length 0 spans = true

instance (text : List Char) (spans : List Span) : Decidable (WellFormed text spans) := by
  unfold WellFormed
  infer_instance

/-- Span filter of src/main.py line 255 (and the equivalent condition of
src/app.py line 92): keep exactly the entities whose label was selected. -/
def filtered_ents (ents : List Span) (selected_entities : List String) : List Span :=
  ents.filter (fun ent => ent.label_ ∈ selected_entities)

/-- A recognizer token as consumed by the statistics code: only its
whitespace/punctuation flags matter. -/
structure SToken where
  is_space : Bool
  is_punct : Bool
deriving DecidableEq, Repr

/-- Recognizer output consumed by src/main.py `show_statistics`: the token
sequence, the sentence grouping, and the entity spans. -/
structure Doc where
  tokens : List SToken
  sents : List (List SToken)
  ents : List Span
deriving Repr

/-- The statistics computed by src/main.py lines 360-377, with the field names
of the source's local variables. -/
structure StatisticsReport where
  total_words : Nat
  total_sents : Nat
  avg_sent_len : ℚ
  total_ents : Nat
  ent_type_counts : String → Nat
  density : ℚ
  ent_len_counts : Nat → Nat
  avg_ent_len : ℚ

set_option linter.unusedVariables false in
/-- src/main.py lines 360-377 (`show_statistics`), as a function of the
recognizer output. `selected_entities` is the caller's label selection (the
widget state in scope at the call); the source never reads it here. -/
def show_statistics (doc_stat : Doc) (selected_entities : List String) :
    StatisticsReport :=
  let total_words := (doc_stat.tokens.filter (fun t => !t.is_space && !t.is_punct)).length
  let sentences := doc_stat.sents
  let total_sents := sentences.length
  let avg_sent_len : ℚ :=
    if total_sents > 0 then
      ((sentences.map
          (fun s => ((s.filter (fun t => !t.is_space && !t.is_punct)).length : ℚ))).sum)
        / (total_sents : ℚ)
    else 0
  let total_ents := doc_stat.ents.length
  let ent_type_counts := fun l => (doc_stat.ents.filter (fun e => e.label_ = l)).length
  let density : ℚ :=
    if total_words ≠ 0 then (total_ents : ℚ) / (total_words : ℚ) * 100 else 0
  let ent_len_counts := fun n => (doc_stat.ents.filter (fun e => e.len = n)).length
  let avg_ent_len : ℚ :=
    if total_ents ≠ 0 then ((doc_stat.ents.map (fun e => (e.len : ℚ))).sum) / (total_ents : ℚ)
    else 0
  ⟨total_words, total_sents, avg_sent_len, total_ents, ent_type_counts, density,
    ent_len_counts, avg_ent_len⟩

/-- Splicing identity for Python slices: `text[a:b] + text[b:] = text[a:]`. -/
theorem pySlice_append_drop (text : List Char) {a b : Nat} (h : a ≤ b) :
    pySlice text a b ++ text.drop b = text.drop a := by
  unfold pySlice
  have hd : text.drop b = (text.drop a).drop (b - a) := by
    rw [List.drop_drop]
    congr 1
    omega
  rw [hd, List.take_append_drop]

/-- The slice reaching the end of the text is the drop. -/
theorem pySlice_to_end (text : List Char) (a : Nat) :
    pySlice text a text.length = text.drop a := by
  unfold pySlice
  rw [← List.length_drop, List.take_length]

/-- Weakening the cursor bound of the well-formedness contract. -/
theorem wfFrom_mono {len a b : Nat} {ss : List Span} (hab : a ≤ b)
    (h : wfFrom len b ss = true) : wfFrom len a ss = true := by
  cases ss with
  | nil => rfl
  | cons s rest =>
    simp only [wfFrom, Bool.and_eq_true, decide_eq_true_eq] at h ⊢
    exact ⟨⟨⟨le_trans hab h.1.1.1, h.1.1.2⟩, h.1.2⟩, h.2⟩

/-- Coverage of the src/app.py render walk from an arbitrary cursor. -/
theorem nerWalk_cov (text : List Char) (selected : List String) :
    ∀ (ents : List Span) (last : Nat), wfFrom text.length last ents = true →
      stripConcat (nerWalk text selected last ents) = text.drop last := by
  intro ents
  induction ents with
  | nil =>
    intro last _
    simp [nerWalk, stripConcat, stripSeg, pySlice_to_end]
  | cons ent rest ih =>
    intro last h
    simp only [wfFrom, Bool.and_eq_true, decide_eq_true_eq] at h
    obtain ⟨⟨⟨h1, h2⟩, _⟩, h4⟩ := h
    by_cases hsel : ent.label_ ∈ selected
    · rw [nerWalk, if_pos hsel]
      simp only [stripConcat, List.map_cons, List.flatten_cons, stripSeg]
      rw [← stripConcat, ih ent.end_char h4, pySlice_append_drop text h2,
        pySlice_append_drop text h1]
    · rw [nerWalk, if_neg hsel]
      exact ih last (wfFrom_mono (le_trans h1 h2) h4)

/-- Stripped concatenation distributes over list append. -/
theorem stripConcat_append (xs ys : List Seg) :
    stripConcat (xs ++ ys) = stripConcat xs ++ stripConcat ys := by
  simp [stripConcat]

/-- The emptiness-guarded emission of the desktop walks contributes exactly the
guarded slice. -/
theorem stripConcat_guards (p q : List Char) (c lbl : String) (rest : List Seg) :
    stripConcat ((if p ≠ [] then [Seg.plain p] else []) ++
        (if q ≠ [] then [Seg.styled c q lbl] else []) ++ rest) =
      p ++ q ++ stripConcat rest := by
  rcases eq_or_ne p [] with hp | hp <;> rcases eq_or_ne q [] with hq | hq <;>
    simp [stripConcat_append, stripConcat, stripSeg, hp, hq]

/-- Coverage of the src/main.py `save_to_word` walk from an arbitrary cursor. -/
theorem wordSegs_cov (text : List Char) :
    ∀ (ents : List Span) (last : Nat), wfFrom text.length last ents = true →
      stripConcat (save_to_word_segs text last ents) = text.drop last := by
  intro ents
  induction ents with
  | nil =>
    intro last _
    by_cases hlt : last < text.length
    · simp [save_to_word_segs, hlt, stripConcat, stripSeg, pySlice_to_end]
    · rw [save_to_word_segs, if_neg hlt]
      rw [List.drop_eq_nil_of_le (by omega)]
      rfl
  | cons ent rest ih =>
    intro last h
    simp only [wfFrom, Bool.and_eq_true, decide_eq_true_eq] at h
    obtain ⟨⟨⟨h1, h2⟩, _⟩, h4⟩ := h
    rw [save_to_word_segs, stripConcat_guards, ih ent.end_char h4, List.append_assoc,
      pySlice_append_drop text h2, pySlice_append_drop text h1]

/-- Coverage of the src/main.py `save_to_pdf` walk from an arbitrary cursor. -/
theorem pdfSegs_cov (text : List Char) :
    ∀ (ents : List Span) (last : Nat), wfFrom text.length last ents = true →
      stripConcat (save_to_pdf_segs text last ents) = text.drop last := by
  intro ents
  induction ents with
  | nil =>
    intro last _
    by_cases hlt : last < text.length
    · simp [save_to_pdf_segs, hlt, stripConcat, stripSeg, pySlice_to_end]
    · rw [save_to_pdf_segs, if_neg hlt]
      rw [List.drop_eq_nil_of_le (by omega)]
      rfl
  | cons ent rest ih =>
    intro last h
    simp only [wfFrom, Bool.and_eq_true, decide_eq_true_eq] at h
    obtain ⟨⟨⟨h1, h2⟩, _⟩, h4⟩ := h
    rw [save_to_pdf_segs, stripConcat_guards, ih ent.end_char h4, List.append_assoc,
      pySlice_append_drop text h2, pySlice_append_drop text h1]

/-- Unrolling the indexed insertion loop one token at a time. -/
theorem insertLoop_cons (trig : List Char → List Char → Bool) (t : List Char)
    (ts : List (List Char)) :
    insertLoop trig (t :: ts) =
      t :: ((if decide (0 < ts.length) && trig t (ts.getD 0 []) then [['.']] else []) ++
        insertLoop trig ts) := by
  unfold insertLoop
  rw [List.length_cons, List.range_succ_eq_map, List.flatMap_cons, List.flatMap_map]
  have hcongr :
      (List.range ts.length).flatMap
          (fun i => (t :: ts).getD (Nat.succ i) [] ::
            (if decide (Nat.succ i < ts.length + 1 - 1) &&
                trig ((t :: ts).getD (Nat.succ i) []) ((t :: ts).getD (Nat.succ i + 1) [])
             then [['.']] else [])) =
        (List.range ts.length).flatMap
          (fun i => ts.getD i [] ::
            (if decide (i < ts.length - 1) &&
                trig (ts.getD i []) (ts.getD (i + 1) []) then [['.']] else [])) := by
    apply List.flatMap_congr
    intro i hi
    rw [List.mem_range] at hi
    have hd : decide (Nat.succ i < ts.length + 1 - 1) = decide (i < ts.length - 1) := by
      exact decide_eq_decide.mpr (by omega)
    simp only [List.getD_cons_succ, hd]
  rw [hcongr]
  simp only [List.getD_cons_zero, List.getD_cons_succ, Nat.add_sub_cancel,
    List.cons_append, List.nil_append]

/-- The indexed insertion loop agrees with its structural reformulation. -/
theorem insertLoop_eq_insRec (trig : List Char → List Char → Bool) :
    ∀ ts : List (List Char), insertLoop trig ts = insRec trig ts := by
  intro ts
  induction ts with
  | nil => rfl
  | cons t ts ih =>
    rw [insertLoop_cons, ih]
    cases ts with
    | nil => rfl
    | cons u rest =>
      simp only [insRec, List.getD_cons_zero, List.length_cons, Nat.zero_lt_succ,
        decide_eq_true_eq, decide_True, Bool.true_and]
      by_cases htr : trig t u = true
      · rw [if_pos htr, if_pos htr]
        rfl
      · rw [if_neg htr, if_neg htr]
        rfl

/-- Unfolding equation of `insRec` when the trigger fires. -/
theorem insRec_cons₂_pos {trig : List Char → List Char → Bool} {t next : List Char}
    (rest : List (List Char)) (h : trig t next = true) :
    insRec trig (t :: next :: rest) = t :: ['.'] :: insRec trig (next :: rest) := by
  rw [insRec, if_pos h]

/-- Unfolding equation of `insRec` when the trigger does not fire. -/
theorem insRec_cons₂_neg {trig : List Char → List Char → Bool} {t next : List Char}
    (rest : List (List Char)) (h : trig t next = false) :
    insRec trig (t :: next :: rest) = t :: insRec trig (next :: rest) := by
  rw [insRec, if_neg (by rw [h]; exact Bool.false_ne_true)]

/-- The insertion loop keeps the head token in place. -/
theorem insRec_cons_head (trig : List Char → List Char → Bool) (x : List Char)
    (r : List (List Char)) : ∃ s, insRec trig (x :: r) = x :: s := by
  cases r with
  | nil => exact ⟨[], rfl⟩
  | cons u rest =>
    by_cases h : trig x u = true
    · exact ⟨['.'] :: insRec trig (u :: rest), insRec_cons₂_pos rest h⟩
    · exact ⟨insRec trig (u :: rest), insRec_cons₂_neg rest (Bool.eq_false_iff.mpr h)⟩

/-- Every token output by the insertion loop is an input token or the synthetic
period. -/
theorem insRec_mem (trig : List Char → List Char → Bool) :
    ∀ (ts : List (List Char)) (x : List Char), x ∈ insRec trig ts → x ∈ ts ∨ x = ['.'] := by
  intro ts
  induction ts with
  | nil => intro x hx; exact absurd hx (List.not_mem_nil x)
  | cons t ts ih =>
    cases ts with
    | nil =>
      intro x hx
      left
      exact hx
    | cons u rest =>
      intro x hx
      by_cases h : trig t u = true
      · rw [insRec_cons₂_pos rest h] at hx
        rcases List.mem_cons.mp hx with rfl | hx
        · exact Or.inl (List.mem_cons_self _ _)
        · rcases List.mem_cons.mp hx with rfl | hx
          · exact Or.inr rfl
          · rcases ih x hx with h' | h'
            · exact Or.inl (List.mem_cons_of_mem _ h')
            · exact Or.inr h'
      · rw [insRec_cons₂_neg rest (Bool.eq_false_iff.mpr h)] at hx
        rcases List.mem_cons.mp hx with rfl | hx
        · exact Or.inl (List.mem_cons_self _ _)
        · rcases ih x hx with h' | h'
          · exact Or.inl (List.mem_cons_of_mem _ h')
          · exact Or.inr h'

/-- The insertion loop never changes the last token: no period is ever appended
after the final token of the sequence. -/
theorem insRec_getLast? (trig : List Char → List Char → Bool) :
    ∀ ts : List (List Char), (insRec trig ts).getLast? = ts.getLast? := by
  intro ts
  induction ts with
  | nil => rfl
  | cons t ts ih =>
    cases ts with
    | nil => rfl
    | cons u rest =>
      obtain ⟨s, hs⟩ := insRec_cons_head trig u rest
      by_cases h : trig t u = true
      · rw [insRec_cons₂_pos rest h, hs, List.getLast?_cons_cons, List.getLast?_cons_cons,
          ← hs, ih, List.getLast?_cons_cons]
      · rw [insRec_cons₂_neg rest (Bool.eq_false_iff.mpr h), hs, List.getLast?_cons_cons,
          ← hs, ih, List.getLast?_cons_cons]

/-- The insertion loop is idempotent for any trigger that never fires on or
after a bare period token. -/
theorem insRec_idem (trig : List Char → List Char → Bool)
    (hdotr : ∀ t, trig t ['.'] = false) (hdotl : ∀ u, trig ['.'] u = false) :
    ∀ ts : List (List Char), insRec trig (insRec trig ts) = insRec trig ts := by
  intro ts
  induction ts with
  | nil => rfl
  | cons t ts ih =>
    cases ts with
    | nil => rfl
    | cons u rest =>
      obtain ⟨s, hs⟩ := insRec_cons_head trig u rest
      by_cases h : trig t u = true
      · rw [insRec_cons₂_pos rest h, hs, insRec_cons₂_neg _ (hdotr t),
          insRec_cons₂_neg _ (hdotl u), ← hs, ih]
      · rw [insRec_cons₂_neg rest (Bool.eq_false_iff.mpr h), hs,
          insRec_cons₂_neg _ (Bool.eq_false_iff.mpr h), ← hs, ih]

/-- The web trigger never fires before a bare period token. -/
theorem trigApp_dot_right (t : List Char) : trigApp t ['.'] = false := by
  have h : firstIsUpper ['.'] = false := by decide
  simp [trigApp, h]

/-- The web trigger never fires on a bare period token. -/
theorem trigApp_dot_left (u : List Char) : trigApp ['.'] u = false := by
  have h : numPriceMatch ['.'] = false := by decide
  simp [trigApp, h]

/-- The desktop trigger never fires before a bare period token. -/
theorem trigMain_dot_right (t : List Char) : trigMain t ['.'] = false := by
  have h : firstIsUpper ['.'] = false := by decide
  simp [trigMain, h]

/-- The desktop trigger never fires on a bare period token. -/
theorem trigMain_dot_left (u : List Char) : trigMain ['.'] u = false := by
  have h1 : dateMatch ['.'] = false := by decide
  have h2 : numPriceMatch ['.'] = false := by decide
  simp [trigMain, h1, h2]

/-- Unfolding equation of `splitWsAux` on the empty text. -/
theorem splitWsAux_nil (cur : List Char) :
    splitWsAux [] cur = if cur.isEmpty then [] else [cur.reverse] := rfl

/-- Unfolding equation of `splitWsAux` on a cons. -/
theorem splitWsAux_cons (c : Char) (cs cur : List Char) :
    splitWsAux (c :: cs) cur =
      if pyIsSpace c then
        (if cur.isEmpty then splitWsAux cs [] else cur.reverse :: splitWsAux cs [])
      else splitWsAux cs (c :: cur) := rfl

/-- Every token produced by the split worker is nonempty and whitespace-free. -/
theorem splitWsAux_tokens :
    ∀ (s cur : List Char), (∀ c ∈ cur, pyIsSpace c = false) →
      ∀ t ∈ splitWsAux s cur, t ≠ [] ∧ ∀ c ∈ t, pyIsSpace c = false := by
  intro s
  induction s with
  | nil =>
    intro cur hcur t ht
    rw [splitWsAux_nil] at ht
    by_cases hc : cur.isEmpty = true
    · rw [if_pos hc] at ht
      exact absurd ht (List.not_mem_nil t)
    · rw [if_neg hc] at ht
      rcases List.mem_singleton.mp ht with rfl
      refine ⟨?_, ?_⟩
      · intro hnil
        exact hc (by simp [List.isEmpty_iff, ← List.reverse_eq_nil_iff, hnil])
      · intro c hcm
        exact hcur c (List.mem_reverse.mp hcm)
  | cons c cs ih =>
    intro cur hcur t ht
    rw [splitWsAux_cons] at ht
    by_cases hsp : pyIsSpace c = true
    · rw [if_pos hsp] at ht
      by_cases hc : cur.isEmpty = true
      · rw [if_pos hc] at ht
        exact ih [] (by intro a ha; exact absurd ha (List.not_mem_nil a)) t ht
      · rw [if_neg hc] at ht
        rcases List.mem_cons.mp ht with rfl | ht'
        · refine ⟨?_, ?_⟩
          · intro hnil
            exact hc (by simp [List.isEmpty_iff, ← List.reverse_eq_nil_iff, hnil])
          · intro a ham
            exact hcur a (List.mem_reverse.mp ham)
        · exact ih [] (by intro a ha; exact absurd ha (List.not_mem_nil a)) t ht'
    · rw [if_neg hsp] at ht
      refine ih (c :: cur) ?_ t ht
      intro a ha
      rcases List.mem_cons.mp ha with rfl | ha'
      · exact Bool.eq_false_iff.mpr hsp
      · exact hcur a ha'

/-- Every token of Python `text.split()` is nonempty and whitespace-free. -/
theorem splitWs_tokens (text : List Char) :
    ∀ t ∈ splitWs text, t ≠ [] ∧ ∀ c ∈ t, pyIsSpace c = false :=
  splitWsAux_tokens text [] (by intro a ha; exact absurd ha (List.not_mem_nil a))

/-- The split worker consumes a whitespace-free word as a whole. -/
theorem splitWsAux_word :
    ∀ (w rest cur : List Char), (∀ c ∈ w, pyIsSpace c = false) →
      splitWsAux (w ++ rest) cur = splitWsAux rest (w.reverse ++ cur) := by
  intro w
  induction w with
  | nil =>
    intro rest cur _
    simp
  | cons c w ih =>
    intro rest cur hw
    have hc : pyIsSpace c = false := hw c (List.mem_cons_self _ _)
    rw [List.cons_append, splitWsAux_cons, if_neg (by rw [hc]; exact Bool.false_ne_true),
      ih rest (c :: cur) (fun a ha => hw a (List.mem_cons_of_mem _ ha)),
      List.reverse_cons, List.append_assoc, List.singleton_append]

/-- Splitting after re-joining recovers the token list, provided all tokens are
nonempty and whitespace-free. -/
theorem splitWs_joinSpace :
    ∀ ts : List (List Char), (∀ t ∈ ts, t ≠ [] ∧ ∀ c ∈ t, pyIsSpace c = false) →
      splitWs (joinSpace ts) = ts := by
  intro ts
  induction ts with
  | nil => intro _; rfl
  | cons t ts ih =>
    intro h
    have ht := h t (List.mem_cons_self _ _)
    cases ts with
    | nil =>
      show splitWsAux (joinSpace [t]) [] = [t]
      rw [joinSpace, ← List.append_nil t, splitWsAux_word t [] [] ht.2, splitWsAux_nil]
      rw [if_neg (by simp [List.isEmpty_iff, ht.1])]
      simp
    | cons t2 ts2 =>
      show splitWsAux (joinSpace (t :: t2 :: ts2)) [] = t :: t2 :: ts2
      rw [joinSpace, splitWsAux_word t _ [] ht.2, splitWsAux_cons, if_pos (by decide),
        if_neg (by simp [List.isEmpty_iff, ht.1])]
      have htail : splitWsAux (joinSpace (t2 :: ts2)) [] = t2 :: ts2 :=
        ih (fun x hx => h x (List.mem_cons_of_mem _ hx))
      rw [htail]
      simp

/-- The insertion loop preserves nonemptiness and whitespace-freeness of tokens. -/
theorem insRec_tokens (trig : List Char → List Char → Bool) (ts : List (List Char))
    (h : ∀ t ∈ ts, t ≠ [] ∧ ∀ c ∈ t, pyIsSpace c = false) :
    ∀ t ∈ insRec trig ts, t ≠ [] ∧ ∀ c ∈ t, pyIsSpace c = false := by
  intro t ht
  rcases insRec_mem trig ts t ht with h' | rfl
  · exact h t h'
  · refine ⟨by simp, ?_⟩
    intro c hc
    rcases List.mem_singleton.mp hc with rfl
    decide

/-- The desktop preprocessor of src/main.py is idempotent. -/
theorem preprocess_text_idem (text : List Char) :
    preprocess_text (preprocess_text text) = preprocess_text text := by
  unfold preprocess_text
  rw [insertLoop_eq_insRec, insertLoop_eq_insRec,
    splitWs_joinSpace (insRec trigMain (splitWs text))
      (insRec_tokens trigMain (splitWs text) (splitWs_tokens text)),
    insRec_idem trigMain trigMain_dot_right trigMain_dot_left]

/-- The web preprocessor of src/app.py is idempotent. -/
theorem preprocess_idem (text : List Char) :
    preprocess (preprocess text) = preprocess text := by
  by_cases h : hasSentencePunct text = true
  · have h1 : preprocess text = text := by
      rw [preprocess, if_pos h]
    rw [h1, h1]
  · have h1 : preprocess text = joinSpace (insRec trigApp (splitWs text)) := by
      rw [preprocess, if_neg h, insertLoop_eq_insRec]
    rw [h1]
    by_cases h2 : hasSentencePunct (joinSpace (insRec trigApp (splitWs text))) = true
    · rw [preprocess, if_pos h2]
    · rw [preprocess, if_neg h2, insertLoop_eq_insRec,
        splitWs_joinSpace (insRec trigApp (splitWs text))
          (insRec_tokens trigApp (splitWs text) (splitWs_tokens text)),
        insRec_idem trigApp trigApp_dot_right trigApp_dot_left]

/-- Helper: a token whose first character is uppercase is nonempty. -/
theorem firstIsUpper_ne_nil {next : List Char} (h : firstIsUpper next = true) :
    next.isEmpty = false := by
  cases next with
  | nil => exact absurd h (by decide)
  | cons c cs => rfl

/-- C1: Renderer coverage invariant — for every text and every sorted,
non-overlapping, in-bounds span list, concatenating all segments emitted by the
render walk (unstyled slices plus styled entity slices, with the markup wrapper
and the appended ` [LABEL]` decoration stripped) reconstructs the input text
exactly, for each of the three targets: inline-highlight (src/app.py `ner`),
document-run (src/main.py `save_to_word`), and print-markup (src/main.py
`save_to_pdf`). -/
theorem C1_renderer_coverage (text : List Char) (ents : List Span)
    (selected : List String) (h : WellFormed text ents) :
    stripConcat (nerWalk text selected 0 ents) = text ∧
    stripConcat (save_to_word_segs text 0 ents) = text ∧
    stripConcat (save_to_pdf_segs text 0 ents) = text := by
  refine ⟨?_, ?_, ?_⟩
  · rw [nerWalk_cov text selected ents 0 h, List.drop_zero]
  · rw [wordSegs_cov text ents 0 h, List.drop_zero]
  · rw [pdfSegs_cov text ents 0 h, List.drop_zero]

/-- C1 witness: concrete well-formed instance. -/
theorem C1_renderer_coverage_witness :
    WellFormed ("Apple Inc".toList) [⟨0, 5, "ORG", 1⟩] ∧
    stripConcat (nerWalk ("Apple Inc".toList) ["ORG"] 0 [⟨0, 5, "ORG", 1⟩]) =
      "Apple Inc".toList :=
  ⟨by decide,
   (C1_renderer_coverage ("Apple Inc".toList) [⟨0, 5, "ORG", 1⟩] ["ORG"] (by decide)).1⟩

/-- C2: the source embeds entity text into markup without escaping: on input
`a<b` with one selected span covering it, both the inline-highlight and the
print-markup outputs contain the `<` of the entity text verbatim inside the
markup string, so markup-special input does not round-trip. -/
theorem C2_no_markup_escaping :
    ner ("a<b".toList) [⟨0, 3, "ORG", 1⟩] ["ORG"] =
      ("<span class=\"entity\" style=\"background:#A2C8EC\">a<b [ORG]</span>").toList ∧
    save_to_pdf ("a<b".toList) [⟨0, 3, "ORG", 1⟩] =
      ("<span backColor=\"#A2C8EC\">a<b [ORG]</span>").toList :=
  ⟨by decide, by decide⟩

/-- C3 counterexample: `"100 Apple,"` contains none of `.!?`, and the claimed
tokenize-reassemble output would be `"100 . Apple,"`; the desktop entry point
cited by the claim is suppressed by the comma (a `string.punctuation`
character) and returns the text unchanged instead. -/
theorem C3_counterexample :
    hasSentencePunct ("100 Apple,".toList) = false ∧
    joinSpace (insertLoop trigMain (splitWs ("100 Apple,".toList))) =
      "100 . Apple,".toList ∧
    tag_entities_preprocess ("100 Apple,".toList) = "100 Apple,".toList ∧
    ("100 Apple,".toList : List Char) ≠ "100 . Apple,".toList :=
  ⟨by decide, by decide, by decide, by decide⟩

/-- C3 (amended): the web `preprocess` fires exactly on `.!?`-free input —
text containing any of `.!?` is returned unchanged, and text containing none is
the whitespace-tokenized sequence reassembled with the insertion rule, not
suppressed by other punctuation such as commas — while the desktop entry point
applies `preprocess_text` only to text containing no `string.punctuation`
character at all, returning any text with a punctuation character (commas
included) unchanged. -/
theorem C3_preprocessor_guard :
    (∀ text : List Char, hasSentencePunct text = true → preprocess text = text) ∧
    (∀ text : List Char, hasSentencePunct text = false →
      preprocess text = joinSpace (insertLoop trigApp (splitWs text))) ∧
    preprocess ("100 Apple,".toList) = "100 . Apple,".toList ∧
    (∀ text : List Char, py_string_punct.any (fun ch => text.contains ch) = true →
      tag_entities_preprocess text = text) ∧
    (∀ text : List Char, py_string_punct.any (fun ch => text.contains ch) = false →
      tag_entities_preprocess text = preprocess_text text) := by
  refine ⟨?_, ?_, by decide, ?_, ?_⟩
  · intro text h
    rw [preprocess, if_pos h]
  · intro text h
    rw [preprocess, if_neg (by rw [h]; exact Bool.false_ne_true)]
  · intro text h
    rw [tag_entities_preprocess, h]
    rfl
  · intro text h
    rw [tag_entities_preprocess, h]
    rfl

/-- C3 witness: concrete instances of the guarded branches. -/
theorem C3_preprocessor_guard_witness :
    hasSentencePunct ("a.".toList) = true ∧ preprocess ("a.".toList) = "a.".toList ∧
    py_string_punct.any (fun ch => ("b,".toList).contains ch) = true ∧
    tag_entities_preprocess ("b,".toList) = "b,".toList :=
  ⟨by decide, C3_preprocessor_guard.1 ("a.".toList) (by decide), by decide,
   C3_preprocessor_guard.2.2.2.1 ("b,".toList) (by decide)⟩

/-- C4: insertion rule for numeric/price tokens — in the web insertion loop a
synthetic `.` token is inserted right after a numeric/price token iff the next
token starts with an uppercase letter (and likewise for a numeric/price token
in the desktop loop); the loop never changes the last token, so a matching
token at the end of the sequence never gets a period appended; and
`preprocess "100 Apple" = "100 . Apple"`. -/
theorem C4_insertion_rule :
    (∀ (t next : List Char) (rest : List (List Char)),
      numPriceMatch t = true → firstIsUpper next = true →
        insertLoop trigApp (t :: next :: rest) =
          t :: ['.'] :: insertLoop trigApp (next :: rest)) ∧
    (∀ (t next : List Char) (rest : List (List Char)), firstIsUpper next = false →
      insertLoop trigApp (t :: next :: rest) = t :: insertLoop trigApp (next :: rest)) ∧
    (∀ (t next : List Char) (rest : List (List Char)),
      numPriceMatch t = true → firstIsUpper next = true →
        insertLoop trigMain (t :: next :: rest) =
          t :: ['.'] :: insertLoop trigMain (next :: rest)) ∧
    (∀ ts : List (List Char), (insertLoop trigApp ts).getLast? = ts.getLast?) ∧
    preprocess ("100 Apple".toList) = "100 . Apple".toList := by
  refine ⟨?_, ?_, ?_, ?_, by decide⟩
  · intro t next rest h1 h2
    rw [insertLoop_eq_insRec, insertLoop_eq_insRec,
      insRec_cons₂_pos rest (by simp [trigApp, h1, h2])]
  · intro t next rest h
    rw [insertLoop_eq_insRec, insertLoop_eq_insRec,
      insRec_cons₂_neg rest (by simp [trigApp, h])]
  · intro t next rest h1 h2
    rw [insertLoop_eq_insRec, insertLoop_eq_insRec,
      insRec_cons₂_pos rest (by simp [trigMain, h1, h2, firstIsUpper_ne_nil h2])]
  · intro ts
    rw [insertLoop_eq_insRec]
    exact insRec_getLast? trigApp ts

/-- C4 witness: the rule instantiated at the tokens of `"100 Apple"`. -/
theorem C4_insertion_rule_witness :
    numPriceMatch ("100".toList) = true ∧ firstIsUpper ("Apple".toList) = true ∧
    insertLoop trigApp ["100".toList, "Apple".toList] =
      ["100".toList, ['.'], "Apple".toList] ∧
    preprocess ("100 Apple".toList) = "100 . Apple".toList :=
  ⟨by decide, by decide,
   C4_insertion_rule.1 ("100".toList) ("Apple".toList) [] (by decide) (by decide),
   C4_insertion_rule.2.2.2.2⟩

/-- C5 counterexample: `"12/25/2020"` matches the date pattern and `"Apple"`
starts uppercase, yet the web `preprocess` (one of the two entry points the
claim covers) performs no insertion: the text comes back unchanged rather than
as `"12/25/2020 . Apple"`. -/
theorem C5_counterexample :
    dateMatch ("12/25/2020".toList) = true ∧
    firstIsUpper ("Apple".toList) = true ∧
    hasSentencePunct ("12/25/2020 Apple".toList) = false ∧
    preprocess ("12/25/2020 Apple".toList) = "12/25/2020 Apple".toList ∧
    ("12/25/2020 Apple".toList : List Char) ≠ "12/25/2020 . Apple".toList :=
  ⟨by decide, by decide, by decide, by decide, by decide⟩

/-- C5 (amended): the date-pattern insertion rule holds only in the desktop
`preprocess_text`: there a date token followed by an uppercase-initial token
triggers insertion of a synthetic `.` token; the web `preprocess` insertion
loop tests only the numeric/price pattern, so a token matching only the date
pattern never triggers an insertion there. -/
theorem C5_date_rule :
    (∀ (t next : List Char) (rest : List (List Char)),
      dateMatch t = true → firstIsUpper next = true →
        insertLoop trigMain (t :: next :: rest) =
          t :: ['.'] :: insertLoop trigMain (next :: rest)) ∧
    (∀ (t next : List Char) (rest : List (List Char)),
      numPriceMatch t = false →
        insertLoop trigApp (t :: next :: rest) = t :: insertLoop trigApp (next :: rest)) ∧
    preprocess_text ("12/25/2020 Apple".toList) = "12/25/2020 . Apple".toList := by
  refine ⟨?_, ?_, by decide⟩
  · intro t next rest h1 h2
    rw [insertLoop_eq_insRec, insertLoop_eq_insRec,
      insRec_cons₂_pos rest (by simp [trigMain, h1, h2, firstIsUpper_ne_nil h2])]
  · intro t next rest h
    rw [insertLoop_eq_insRec, insertLoop_eq_insRec,
      insRec_cons₂_neg rest (by simp [trigApp, h])]

/-- C5 witness: the amended rule instantiated at the tokens of
`"12/25/2020 Apple"`. -/
theorem C5_date_rule_witness :
    dateMatch ("12/25/2020".toList) = true ∧
    insertLoop trigMain ["12/25/2020".toList, "Apple".toList] =
      ["12/25/2020".toList, ['.'], "Apple".toList] ∧
    insertLoop trigApp ["12/25/2020".toList, "Apple".toList] =
      ["12/25/2020".toList, "Apple".toList] :=
  ⟨by decide,
   C5_date_rule.1 ("12/25/2020".toList) ("Apple".toList) [] (by decide) (by decide),
   C5_date_rule.2.1 ("12/25/2020".toList) ("Apple".toList) [] (by decide)⟩

/-- C6: the statistics aggregation of src/main.py `show_statistics` is
independent of the caller's label selection: any two selection sets yield the
identical report, and the entity count is always that of the recognizer's full
unfiltered span set. -/
theorem C6_statistics_selection_independent :
    (∀ (doc_stat : Doc) (sel1 sel2 : List String),
      show_statistics doc_stat sel1 = show_statistics doc_stat sel2) ∧
    (∀ (doc_stat : Doc) (sel : List String),
      (show_statistics doc_stat sel).total_ents = doc_stat.ents.length) :=
  ⟨fun _ _ _ => rfl, fun _ _ => rfl⟩

/-- C7: the span filter is a label-predicate subsequence: it is an
order-preserving sublist of its input (no span split, merged, or re-labeled),
every surviving span's label is in the selection, and the empty selection
yields the empty sequence. -/
theorem C7_span_filter :
    (∀ (ents : List Span) (sel : List String), (filtered_ents ents sel).Sublist ents) ∧
    (∀ (ents : List Span) (sel : List String) (e : Span),
      e ∈ filtered_ents ents sel → e.label_ ∈ sel) ∧
    (∀ ents : List Span, filtered_ents ents [] = []) := by
  refine ⟨?_, ?_, ?_⟩
  · intro ents _
    exact List.filter_sublist ents
  · intro ents sel e he
    exact of_decide_eq_true (List.mem_filter.mp he).2
  · intro ents
    exact List.filter_eq_nil_iff.mpr (fun a _ => by simp)

/-- C7 witness: the filter instantiated on a two-span list. -/
theorem C7_span_filter_witness :
    (filtered_ents [⟨0, 1, "ORG", 1⟩, ⟨2, 3, "GPE", 1⟩] ["ORG"]).Sublist
      [⟨0, 1, "ORG", 1⟩, ⟨2, 3, "GPE", 1⟩] ∧
    (Span.mk 0 1 "ORG" 1).label_ ∈ ["ORG"] ∧
    filtered_ents [⟨0, 1, "ORG", 1⟩, ⟨2, 3, "GPE", 1⟩] [] = [] :=
  ⟨C7_span_filter.1 [⟨0, 1, "ORG", 1⟩, ⟨2, 3, "GPE", 1⟩] ["ORG"],
   C7_span_filter.2.1 [⟨0, 1, "ORG", 1⟩, ⟨2, 3, "GPE", 1⟩] ["ORG"] ⟨0, 1, "ORG", 1⟩
     (by decide),
   C7_span_filter.2.2 [⟨0, 1, "ORG", 1⟩, ⟨2, 3, "GPE", 1⟩]⟩

/-- C8: density boundary — the entity density equals
`entity_count / word_count * 100` whenever the word count (non-whitespace,
non-punctuation tokens) is positive, and is `0` when the word count is `0`;
the aggregation is a total function. -/
theorem C8_density_boundary (doc_stat : Doc) (sel : List String) :
    ((show_statistics doc_stat sel).total_words = 0 →
      (show_statistics doc_stat sel).density = 0) ∧
    (0 < (show_statistics doc_stat sel).total_words →
      (show_statistics doc_stat sel).density =
        ((show_statistics doc_stat sel).total_ents : ℚ) /
          ((show_statistics doc_stat sel).total_words : ℚ) * 100) := by
  constructor
  · intro h
    simp only [show_statistics] at h ⊢
    rw [if_neg (by omega)]
  · intro h
    simp only [show_statistics] at h ⊢
    rw [if_pos (by omega)]

/-- C8 witness: a document whose single token is punctuation-only has word
count `0` and density `0`. -/
theorem C8_density_boundary_witness :
    (show_statistics ⟨[⟨false, true⟩], [], []⟩ []).total_words = 0 ∧
    (show_statistics ⟨[⟨false, true⟩], [], []⟩ []).density = 0 :=
  ⟨by decide, (C8_density_boundary ⟨[⟨false, true⟩], [], []⟩ []).1 (by decide)⟩

/-- C9: both preprocessors are idempotent on every input: a second pass over
the output of the first changes nothing, for the web `preprocess` and for the
desktop `preprocess_text`. -/
theorem C9_preprocessor_idempotent :
    (∀ text : List Char, preprocess (preprocess text) = preprocess text) ∧
    (∀ text : List Char, preprocess_text (preprocess_text text) = preprocess_text text) :=
  ⟨preprocess_idem, preprocess_text_idem⟩

/-- C10: on `.!?`-free input the tokenize-reassemble path runs, so the output
is the whitespace-split tokens joined by single spaces: runs of whitespace
(including newlines and tabs) collapse and leading/trailing whitespace is
removed, and `preprocess` can change the text even when no token matches and
no period is inserted. -/
theorem C10_whitespace_normalization :
    (∀ text : List Char, hasSentencePunct text = false →
      preprocess text = joinSpace (insertLoop trigApp (splitWs text))) ∧
    hasSentencePunct ("a  b".toList) = false ∧
    insertLoop trigApp (splitWs ("a  b".toList)) = splitWs ("a  b".toList) ∧
    preprocess ("a  b".toList) = "a b".toList ∧
    ("a b".toList : List Char) ≠ "a  b".toList ∧
    preprocess (" a \n\t b ".toList) = "a b".toList := by
  refine ⟨?_, by decide, by decide, by decide, by decide, by decide⟩
  intro text h
  rw [preprocess, if_neg (by rw [h]; exact Bool.false_ne_true)]

/-- C10 witness: the reassembly branch instantiated on `"a  b"`. -/
theorem C10_whitespace_normalization_witness :
    hasSentencePunct ("a  b".toList) = false ∧
    preprocess ("a  b".toList) = joinSpace (insertLoop trigApp (splitWs ("a  b".toList))) :=
  ⟨by decide, C10_whitespace_normalization.1 ("a  b".toList) (by decide)⟩
